import Mathlib

/-!
Shallow embedding of `src/api/index.py` (kinbox-live-email-monitor).

Python strings are modelled as Lean `String` / `List Char` (Python `str`
indexes code points, as `List Char` does).  Python string helpers
(`in`, `split`, `strip`, `lower`) are re-implemented below on `List Char`
with the Python semantics; Unicode-specific behaviour outside the ASCII
range (e.g. non-ASCII case mapping, Unicode whitespace) is modelled for
the ASCII range, which is what every claim exercises.

External collaborators (imaplib, ssl, email.header.decode_header,
hashlib.md5, the wall clock) are modelled as explicit oracle data
threaded through the functions:
* an `ImapEnv` / `Session` records the outcome of each network call
  (`none` models the call raising an exception);
* `decode_header` output is attached to a message as a list of
  `MimePart` segments (`none` models `decode_header` itself raising);
* byte payloads are represented by their `utf-8` with errors ignored
  decoding (that decoding is total in Python), with `none` modelling a
  missing/empty payload or a raising `get_payload` call;
* `hashlib.md5(x).hexdigest()` is an injective fingerprint of `x`; no
  claim depends on the digest text, so the key is modelled by the
  pre-image string itself;
* `time.time()` is passed in as a natural-number `now` argument.
-/

/-- Python `str.split()` / `str.strip()` whitespace predicate (ASCII part:
space, tab, newline, carriage return, vertical tab, form feed). -/
def pyIsSpace (c : Char) : Bool :=
  c = ' ' || c = '\t' || c = '\n' || c = '\r' || c = '\x0b' || c = '\x0c'

/-- Python `str.lower()` on one character, ASCII range: shifts A-Z (code
points 65-90) down to a-z and fixes everything else (matching Python
there; non-ASCII case mapping is outside the modelled range). -/
def pyLowerChar (c : Char) : Char :=
  if 65 ≤ c.toNat ∧ c.toNat ≤ 90 then Char.ofNat (c.toNat + 32) else c

/-- Python `str.lower()`. -/
def pyLower (s : String) : String :=
  String.mk (s.data.map pyLowerChar)

/-- Model of Python list/str prefix test used by `containsSeq`:
`startsWithSeq needle hay` is true when `needle` is an initial segment of `hay`. -/
def startsWithSeq : List Char → List Char → Bool
  | [], _ => true
  | _ :: _, [] => false
  | a :: as, b :: bs => a = b && startsWithSeq as bs

/-- Model of Python `needle in hay` substring containment. -/
def containsSeq (needle : List Char) : List Char → Bool
  | [] => needle.isEmpty
  | c :: rest => startsWithSeq needle (c :: rest) || containsSeq needle rest

/-- Python `needle in hay` on strings. -/
def pyContains (needle hay : String) : Bool :=
  containsSeq needle.data hay.data

/-- Python `s.split(sep)` for a one-character separator: splits at every
occurrence, keeping empty fields. -/
def pySplitOnChar (sep : Char) : List Char → List (List Char)
  | [] => [[]]
  | c :: rest =>
    if c = sep then [] :: pySplitOnChar sep rest
    else
      match pySplitOnChar sep rest with
      | t :: ts => (c :: t) :: ts
      | [] => [[c]]

/-- Python `s.strip()`: drop whitespace from both ends. -/
def pyStrip (l : List Char) : List Char :=
  ((l.dropWhile pyIsSpace).reverse.dropWhile pyIsSpace).reverse

/-- Accumulator form of Python `s.split()` (split on whitespace runs,
no empty fields). -/
def pySplitWsAux : List Char → List Char → List (List Char)
  | acc, [] => if acc.isEmpty then [] else [acc.reverse]
  | acc, c :: rest =>
    if pyIsSpace c then
      if acc.isEmpty then pySplitWsAux [] rest
      else acc.reverse :: pySplitWsAux [] rest
    else pySplitWsAux (c :: acc) rest

/-- Python `s.split()` with no arguments. -/
def pySplitWs (l : List Char) : List (List Char) :=
  pySplitWsAux [] l

/-- Python `str.join` of tokens with a single-space separator. -/
def joinSpace : List (List Char) → List Char
  | [] => []
  | [t] => t
  | t :: ts => t ++ ' ' :: joinSpace ts

/-- Python string comparison `a < b` (lexicographic by code point). -/
def lexLtChars : List Char → List Char → Bool
  | [], [] => false
  | [], _ :: _ => true
  | _ :: _, [] => false
  | a :: as, b :: bs => if a < b then true else if b < a then false else lexLtChars as bs

/-- Embedding of `get_imap_server` (src/api/index.py lines 42-56).
indexing element 1 of the split on the at-sign raises `IndexError` when the address has no
`@`; the raise is modelled by `none`. -/
def get_imap_server (email_address : String) : Option String :=
  match (pySplitOnChar '@' email_address.data).get? 1 with
  | none => none
  | some seg =>
    let domain := pyLower (String.mk seg)
    if pyContains "gmail" domain then some "imap.gmail.com"
    else if pyContains "yahoo" domain then some "imap.mail.yahoo.com"
    else if pyContains "outlook" domain || pyContains "hotmail" domain
         || pyContains "live" domain then some "outlook.office365.com"
    else if pyContains "icloud" domain then some "imap.mail.me.com"
    else some ("imap." ++ domain)

/-- One segment of the output of `email.header.decode_header`
(external stdlib call, modelled as oracle data): either a `str` part or a
`bytes` part.  For a `bytes` part, `declDecode` is the result of
`part.decode(encoding)` (`none` models that call raising, e.g. for an
unknown charset or invalid bytes) and `utf8Decode` is the total result of
`part.decode` with `utf-8` and errors ignored. -/
inductive MimePart where
  | str (s : String)
  | bytes (encoding : Option String) (declDecode : Option String) (utf8Decode : String)
deriving DecidableEq

/-- Python truthiness of the `encoding` value in `if encoding:`. -/
def encTruthy : Option String → Bool
  | none => false
  | some e => e ≠ ""

/-- Loop body of `decode_mime_words`: left-to-right concatenation of the
decoded segments; `none` models an exception escaping the loop. -/
def decodeSegsFrom (acc : String) : List MimePart → Option String
  | [] => some acc
  | MimePart.str t :: rest => decodeSegsFrom (acc ++ t) rest
  | MimePart.bytes enc decD decU :: rest =>
    if encTruthy enc then
      match decD with
      | some d => decodeSegsFrom (acc ++ d) rest
      | none => none
    else decodeSegsFrom (acc ++ decU) rest

/-- Embedding of `decode_mime_words` (src/api/index.py lines 58-73).
`dh` is the oracle output of `email.header.decode_header s`
(`none` models `decode_header` raising); any exception inside the loop is
caught by the bare `except`, which returns `str(s) = s`. -/
def decode_mime_words (dh : Option (List MimePart)) (s : String) : String :=
  match dh with
  | none => s
  | some segs => (decodeSegsFrom "" segs).getD s

/-- Regex search `<([^>]+)>`: first position where a `<` is followed by a
non-empty run of non-`>` characters and then a `>`; returns the run. -/
def findAngle : List Char → Option (List Char)
  | [] => none
  | c :: rest =>
    if c = '<' then
      match rest.dropWhile (fun d => d ≠ '>') with
      | _ :: _ =>
        let content := rest.takeWhile (fun d => d ≠ '>')
        if content.isEmpty then findAngle rest else some content
      | [] => findAngle rest
    else findAngle rest

/-- Embedding of `extract_email_address` (src/api/index.py lines 75-84).
The body is total, so the bare `except` fallback is unreachable. -/
def extract_email_address (sender_field : String) : String :=
  if ('<' ∈ sender_field.data) ∧ ('>' ∈ sender_field.data) then
    match findAngle sender_field.data with
    | some content => String.mk (pyStrip content)
    | none => String.mk (pyStrip sender_field.data)
  else String.mk (pyStrip sender_field.data)

/-- NormalizedMessage record built by the folder fetcher
(src/api/index.py lines 191-198). -/
structure NormalizedMessage where
  uid : String
  sender : String
  subject : String
  date : String
  folder : String
  snippet : String
deriving DecidableEq

/-- CACHE_TTL constant (src/api/index.py line 28). -/
def CACHE_TTL : Nat := 600

/-- The in-process `memory_cache` dict: key to (timestamp, data). -/
def Cache := List (String × (Nat × List NormalizedMessage))

/-- Embedding of `get_cache_key` (src/api/index.py lines 86-88):
`hashlib.md5` hex digest modelled by the injective pre-image string. -/
def get_cache_key (email_address : String) (folder : String := "all") : String :=
  email_address ++ ":" ++ folder

/-- Embedding of `get_from_cache` (src/api/index.py lines 90-103): returns
the hit (if any) together with the cache state after the lazy eviction. -/
def get_from_cache (cache : Cache) (now : Nat) (key : String) :
    Option (List NormalizedMessage) × Cache :=
  match List.lookup key cache with
  | some (ts, d) =>
    if now - ts < CACHE_TTL then (some d, cache)
    else (none, cache.filter (fun e => e.1 != key))
  | none => (none, cache)

/-- Embedding of `set_cache` (src/api/index.py lines 105-114). -/
def set_cache (cache : Cache) (now : Nat) (key : String)
    (data : List NormalizedMessage) : Cache :=
  (key, (now, data)) :: cache.filter (fun e => e.1 != key)

/-- One part of a multipart message as seen by `email_message.walk()`:
its declared content type and the `utf-8` with errors ignored decoding of
`part.get_payload(decode=True)` (`none` models a missing/empty payload or
a raising `get_payload`). -/
structure EmailPart where
  contentType : String
  payload : Option (List Char)
deriving DecidableEq

/-- Body shape of a parsed message: `multipart` with its walk order, or a
single payload. -/
inductive EmailBody where
  | multipart (parts : List EmailPart)
  | single (payload : Option (List Char))
deriving DecidableEq

/-- A parsed message as produced by `email.message_from_bytes` (oracle
data): raw header values (absent modelled by `none`) together with the
`decode_header` oracle output for the From and Subject headers, and the
body shape. -/
structure EmailMsg where
  fromH : Option String
  subjectH : Option String
  dateH : Option String
  fromSegs : Option (List MimePart)
  subjectSegs : Option (List MimePart)
  body : EmailBody
deriving DecidableEq

/-- Multipart branch of the snippet scan (src/api/index.py lines 170-179):
first `text/plain` part with a truthy payload wins; a payload failure
skips to the next part. -/
def firstPlainSnippet : List EmailPart → List Char
  | [] => []
  | p :: rest =>
    if p.contentType = "text/plain" then
      match p.payload with
      | some pay => pay.take 200
      | none => firstPlainSnippet rest
    else firstPlainSnippet rest

/-- Snippet extraction (src/api/index.py lines 168-186). -/
def extractSnippet (m : EmailMsg) : List Char :=
  match m.body with
  | EmailBody.multipart parts => firstPlainSnippet parts
  | EmailBody.single pay =>
    match pay with
    | some p => p.take 200
    | none => []

/-- Snippet clean-up (src/api/index.py line 189):
join the whitespace-split tokens with single spaces, take the first 200 characters, and map a falsy snippet to the empty string. -/
def cleanSnippet (s : List Char) : List Char :=
  if s.isEmpty then [] else (joinSpace (pySplitWs s)).take 200

/-- Construction of one NormalizedMessage from a fetched message
(src/api/index.py lines 160-198). -/
def normalizeMsg (folder uid : String) (m : EmailMsg) : NormalizedMessage :=
  { uid := uid
    sender := decode_mime_words m.fromSegs (m.fromH.getD "")
    subject := decode_mime_words m.subjectSegs (m.subjectH.getD "")
    date := m.dateH.getD ""
    folder := folder
    snippet := String.mk (cleanSnippet (extractSnippet m)) }

/-- Oracle for one open IMAP session: outcome of `mail.select(folder)`
(`none` models a raise, otherwise the status string), outcome of
the search-all command after selecting `folder` (status and the id
list), outcome of the full-message fetch plus parsing for an id of
`folder` (`none` models a non-OK status, a raise, or a parse error, each
of which makes the loop `continue`), and outcome of `mail.list()`. -/
structure Session where
  select : String → Option String
  search : String → Option (String × List String)
  fetch : String → String → Option EmailMsg
  listRes : Option (String × List String)

/-- Loop of `fetch_messages_from_folder` over the chosen ids
(src/api/index.py lines 152-202): a failed fetch skips that id only. -/
def processIds (sess : Session) (folder : String) : List String → List NormalizedMessage
  | [] => []
  | i :: rest =>
    match sess.fetch folder i with
    | none => processIds sess folder rest
    | some m => normalizeMsg folder i m :: processIds sess folder rest

/-- Python slice `ids[-limit:]`: for `limit = 0` this is `ids[0:]`, the
whole list. -/
def pyLastSlice (limit : Nat) (ids : List String) : List String :=
  if limit = 0 then ids else ids.drop (ids.length - limit)

/-- Embedding of `fetch_messages_from_folder` (src/api/index.py lines
131-207).  A raising or non-OK `select` or `search` yields the empty
list (the outer `except` returns the messages accumulated so far, which
is none at that point). -/
def fetch_messages_from_folder (sess : Session) (folder : String) (limit : Nat := 50) :
    List NormalizedMessage :=
  match sess.select folder with
  | none => []
  | some st =>
    if st ≠ "OK" then []
    else
      match sess.search folder with
      | none => []
      | some (st2, ids) =>
        if st2 ≠ "OK" then []
        else
          let recent_ids := if ids.length > limit then pyLastSlice limit ids else ids
          processIds sess folder recent_ids.reverse

/-- Oracle for one aggregation call: outcome of
`imaplib.IMAP4_SSL(server, 993) + login` (`none` models the attempt
raising, with `str(e)` equal to `connectError`). -/
structure ImapEnv where
  connect : Option Session
  connectError : String

/-- HTTPException payload. -/
structure HTTPError where
  status : Nat
  detail : String
deriving DecidableEq

/-- Python `str(e)` on a fastapi/starlette `HTTPException`: the status
code, a colon-space, then the detail text. -/
def hstr (e : HTTPError) : String :=
  toString e.status ++ ": " ++ e.detail

/-- Embedding of `connect_to_imap` (src/api/index.py lines 116-129): any
exception from the SSL connection or the login is wrapped once (no retry)
into `HTTPException(401, "Failed to connect to email server: " + str(e))`. -/
def connect_to_imap (env : ImapEnv) (_email_address _password : String) :
    Except HTTPError Session :=
  match env.connect with
  | some sess => Except.ok sess
  | none => Except.error ⟨401, "Failed to connect to email server: " ++ env.connectError⟩

/-- Scanner for Python `s.split(sep)` with a multi-character separator:
leftmost non-overlapping matches; `skip` counts separator characters
still to be consumed after a match. -/
def splitSeqGo (sep : List Char) : Nat → List Char → List Char → List (List Char)
  | _, acc, [] => [acc.reverse]
  | 0, acc, c :: rest =>
    if startsWithSeq sep (c :: rest) then
      acc.reverse :: splitSeqGo sep (sep.length - 1) [] rest
    else splitSeqGo sep 0 (c :: acc) rest
  | skip + 1, acc, _ :: rest => splitSeqGo sep skip acc rest

/-- Parsing of one line of the `mail.list()` answer
(src/api/index.py line 233): split the decoded line on the five-character
separator (space, double quote, slash, double quote, space), take the last
field, and strip leading and trailing double quotes from it. -/
def parse_folder_line (line : String) : String :=
  let seg := (splitSeqGo (' ' :: '"' :: '/' :: '"' :: [' ']) 0 [] line.data).getLastD []
  String.mk (((seg.dropWhile (fun c => c = '"')).reverse.dropWhile (fun c => c = '"')).reverse)

/-- The hard-coded preference list (src/api/index.py line 225). -/
def common_folders : List String :=
  ["INBOX", "SPAM", "Junk", "PROMOTIONS", "Promotions", "Sent", "Drafts"]

/-- Folder-choice logic of `fetch_messages_from_account`
(src/api/index.py lines 224-244): an `OK` listing is intersected with the
preference list (falling back to the first five listed folders when the
intersection is empty); a non-OK listing leaves the preference list
untouched; a raising listing falls back to INBOX/SPAM/Junk. -/
def folders_to_check (listRes : Option (String × List String)) : List String :=
  match listRes with
  | none => ["INBOX", "SPAM", "Junk"]
  | some (status, lines) =>
    if status = "OK" then
      let available_folders := lines.map parse_folder_line
      let matched := common_folders.filter (fun f => available_folders.contains f)
      if matched.isEmpty then available_folders.take 5 else matched
    else common_folders

/-- Stable insertion step of Python `list.sort(key=..., reverse=True)` on
the date key. -/
def insertByDateDesc (m : NormalizedMessage) : List NormalizedMessage → List NormalizedMessage
  | [] => [m]
  | a :: rest =>
    if lexLtChars a.date.data m.date.data then m :: a :: rest
    else a :: insertByDateDesc m rest

/-- Embedding of the reverse sort on the raw date key
(src/api/index.py line 256): stable descending sort by the raw date string. -/
def sortByDateDesc (l : List NormalizedMessage) : List NormalizedMessage :=
  l.foldr insertByDateDesc []

/-- Body of `fetch_messages_from_account` after a cache miss
(src/api/index.py lines 218-264).  The HTTPException(401) raised by
`connect_to_imap` is caught by the blanket `except Exception` of
`fetch_messages_from_account` and re-raised as
`HTTPException(500, "Error fetching messages: " + str(e))`; every later
step of the body is total (per-folder and per-message failures are
absorbed inside `fetch_messages_from_folder`, and the listing fallback is
inside its own try). -/
def aggregate_body (env : ImapEnv) (cache : Cache) (now : Nat)
    (email_address _password : String) :
    Except HTTPError (List NormalizedMessage) × Cache :=
  match connect_to_imap env email_address _password with
  | Except.error e =>
    (Except.error ⟨500, "Error fetching messages: " ++ hstr e⟩, cache)
  | Except.ok sess =>
    let folders := folders_to_check sess.listRes
    let all_messages :=
      folders.foldl (fun acc f => acc ++ fetch_messages_from_folder sess f 30) []
    let sorted := sortByDateDesc all_messages
    (Except.ok sorted, set_cache cache now (get_cache_key email_address) sorted)

/-- Embedding of `fetch_messages_from_account` (src/api/index.py lines
209-271): a cached value is returned only when it passes the Python
truthiness test `if cached_data:` — a cached empty list falls through to
a fresh fetch. -/
def fetch_messages_from_account (env : ImapEnv) (cache : Cache) (now : Nat)
    (email_address password : String) :
    Except HTTPError (List NormalizedMessage) × Cache :=
  let key := get_cache_key email_address
  match get_from_cache cache now key with
  | (some d, cache1) =>
    if d.isEmpty then aggregate_body env cache1 now email_address password
    else (Except.ok d, cache1)
  | (none, cache1) => aggregate_body env cache1 now email_address password

/-- Result record of `/api/search`. -/
structure SearchOut where
  messages : List NormalizedMessage
  count : Nat
  search_term : String
deriving DecidableEq

/-- Filter predicate of `search_messages` (src/api/index.py lines 302-307):
note the code extracts the address from the already lower-cased sender. -/
def matchesSender (sender_lower : String) (m : NormalizedMessage) : Bool :=
  let message_sender := pyLower m.sender
  let sender_email := pyLower (extract_email_address message_sender)
  pyContains sender_lower message_sender || pyContains sender_lower sender_email

/-- Embedding of `search_messages` (src/api/index.py lines 288-313).
`sender = None` models an absent parameter; `if not sender:` is Python
truthiness, so the empty string also yields the 400.  An HTTPException
from `fetch_messages_from_account` passes through the
`except HTTPException: raise` arm unchanged. -/
def search_messages (env : ImapEnv) (cache : Cache) (now : Nat)
    (email_address password : String) (sender : Option String) :
    Except HTTPError SearchOut × Cache :=
  match sender with
  | none => (Except.error ⟨400, "Sender parameter is required"⟩, cache)
  | some s =>
    if s = "" then (Except.error ⟨400, "Sender parameter is required"⟩, cache)
    else
      match fetch_messages_from_account env cache now email_address password with
      | (Except.error e, cache1) => (Except.error e, cache1)
      | (Except.ok msgs, cache1) =>
        let filtered := msgs.filter (matchesSender (pyLower s))
        (Except.ok ⟨filtered, filtered.length, s⟩, cache1)

/-! Sample data and auxiliary predicates used by the theorems below. -/

/-- Segment of a character list before the first occurrence of `sep`
(used to state which field Python split produces). -/
def firstFieldTo (sep : Char) : List Char → List Char
  | [] => []
  | c :: rest => if c = sep then [] else c :: firstFieldTo sep rest

/-- Sample message used to instantiate witnesses on concrete inputs. -/
def msgA : NormalizedMessage :=
  { uid := "1", sender := "Alice <a@x.com>", subject := "hi", date := "03 Jan",
    folder := "INBOX", snippet := "" }

/-- Environment in which the SSL connection or login raises with the given
message. -/
def envFail (msg : String) : ImapEnv :=
  { connect := none, connectError := msg }

/-- Predicate picking out a segment whose declared-charset decode raises
(making the whole field fall back to the raw input). -/
def segFails : MimePart → Bool
  | MimePart.str _ => false
  | MimePart.bytes enc decD _ => encTruthy enc && decD.isNone

/-- Contribution of one non-failing segment to the decoded field: the
declared-charset decoding when an encoding is present, otherwise the
total utf-8 decoding with invalid sequences ignored. -/
def segText : MimePart → String
  | MimePart.str t => t
  | MimePart.bytes enc decD decU => if encTruthy enc then decD.getD "" else decU

/-- Concatenation of the segment contributions. -/
def segConcat : List MimePart → String
  | [] => ""
  | p :: rest => segText p ++ segConcat rest

/-- Sample parsed message with a given raw Date header (the From header is
plain, so its decode-header oracle output is not needed and the raw value
is used as the sender). -/
def sampleEmailMsg (d : String) : EmailMsg :=
  { fromH := some "Alice <a@x.com>", subjectH := none, dateH := some d,
    fromSegs := none, subjectSegs := none, body := EmailBody.single none }

/-- Sample session: INBOX holds three messages (ids 1, 2, 3 in arrival
order) with raw dates 03 Jan, 25 Dec and 9 Feb; every other folder
refuses selection; the folder listing raises. -/
def sessC3 : Session :=
  { select := fun f => if f = "INBOX" then some "OK" else some "NO"
    search := fun f => if f = "INBOX" then some ("OK", ["1", "2", "3"]) else some ("NO", [])
    fetch := fun _ i =>
      if i = "1" then some (sampleEmailMsg "03 Jan")
      else if i = "2" then some (sampleEmailMsg "25 Dec")
      else if i = "3" then some (sampleEmailMsg "9 Feb")
      else none
    listRes := none }

/-- Environment whose connection succeeds and yields `sessC3`. -/
def envC3 : ImapEnv :=
  { connect := some sessC3, connectError := "" }

/-- Date strings of an aggregation result (empty on error). -/
def okDates : Except HTTPError (List NormalizedMessage) → List String
  | Except.ok l => l.map (fun m => m.date)
  | Except.error _ => []

/-- Non-multipart message whose single payload decodes to 300 letter-x
characters (the spec's concrete snippet example). -/
def msg300 : EmailMsg :=
  { fromH := none, subjectH := none, dateH := none,
    fromSegs := none, subjectSegs := none,
    body := EmailBody.single (some (List.replicate 300 'x')) }

/-! Claim C4: server resolution. -/

theorem pySplitOnChar_ne_nil (sep : Char) (l : List Char) : pySplitOnChar sep l ≠ [] := by
  cases l with
  | nil => simp [pySplitOnChar]
  | cons c rest =>
    by_cases hc : c = sep
    · simp [pySplitOnChar, hc]
    · simp only [pySplitOnChar, if_neg hc]
      rcases h : pySplitOnChar sep rest with _ | ⟨t, ts⟩ <;> simp

theorem pySplitOnChar_head (sep : Char) (l : List Char) :
    (pySplitOnChar sep l).head? = some (firstFieldTo sep l) := by
  induction l with
  | nil => simp [pySplitOnChar, firstFieldTo]
  | cons c rest ih =>
    by_cases hc : c = sep
    · simp [pySplitOnChar, hc, firstFieldTo]
    · simp only [pySplitOnChar, if_neg hc, firstFieldTo]
      rcases h : pySplitOnChar sep rest with _ | ⟨t, ts⟩
      · exact absurd h (pySplitOnChar_ne_nil sep rest)
      · rw [h] at ih
        simp only [List.head?, Option.some.injEq] at ih ⊢
        simp [hc, ih]

theorem pySplitOnChar_get1 (sep : Char) (pre d : List Char) (hpre : sep ∉ pre) :
    (pySplitOnChar sep (pre ++ sep :: d)).get? 1 = some (firstFieldTo sep d) := by
  induction pre with
  | nil =>
    simp only [List.nil_append, pySplitOnChar, if_pos rfl]
    have h := pySplitOnChar_head sep d
    rcases hs : pySplitOnChar sep d with _ | ⟨t, ts⟩
    · exact absurd hs (pySplitOnChar_ne_nil sep d)
    · rw [hs] at h
      simp only [List.head?, Option.some.injEq] at h
      simp [h]
  | cons c pre ih =>
    have hc : c ≠ sep := fun h => hpre (by simp [h])
    have hpre2 : sep ∉ pre := fun h => hpre (by simp [h])
    simp only [List.cons_append, pySplitOnChar, if_neg hc]
    rcases hs : pySplitOnChar sep (pre ++ sep :: d) with _ | ⟨t, ts⟩
    · exact absurd hs (pySplitOnChar_ne_nil sep (pre ++ sep :: d))
    · have h2 := ih hpre2
      rw [hs] at h2
      simpa using h2

/-- Claim C4 counterexample: the claim says resolve returns a hostname for
EVERY address string with no failure mode of its own, but on an address
with no at-sign the code raises IndexError (modelled by `none`). -/
theorem C4_counterexample : get_imap_server "nodomain" = none := by decide

/-- Claim C4 (amended): for every address containing at least one at-sign,
resolve returns a hostname, determined by the lower-cased segment between
the first at-sign and the following at-sign (or the end of the string):
imap.gmail.com when that segment contains "gmail", then the yahoo,
outlook/hotmail/live and icloud rules in that order, and the heuristic
"imap." ++ domain otherwise; an address without an at-sign raises
(IndexError) instead of returning. -/
theorem C4_resolver (s : String) (pre d : List Char)
    (hs : s.data = pre ++ '@' :: d) (hpre : '@' ∉ pre) :
    (∃ host, get_imap_server s = some host) ∧
    (pyContains "gmail" (pyLower (String.mk (firstFieldTo '@' d))) = true →
      get_imap_server s = some "imap.gmail.com") ∧
    (pyContains "gmail" (pyLower (String.mk (firstFieldTo '@' d))) = false →
     pyContains "yahoo" (pyLower (String.mk (firstFieldTo '@' d))) = true →
      get_imap_server s = some "imap.mail.yahoo.com") ∧
    (pyContains "gmail" (pyLower (String.mk (firstFieldTo '@' d))) = false →
     pyContains "yahoo" (pyLower (String.mk (firstFieldTo '@' d))) = false →
     (pyContains "outlook" (pyLower (String.mk (firstFieldTo '@' d)))
      || pyContains "hotmail" (pyLower (String.mk (firstFieldTo '@' d)))
      || pyContains "live" (pyLower (String.mk (firstFieldTo '@' d)))) = true →
      get_imap_server s = some "outlook.office365.com") ∧
    (pyContains "gmail" (pyLower (String.mk (firstFieldTo '@' d))) = false →
     pyContains "yahoo" (pyLower (String.mk (firstFieldTo '@' d))) = false →
     pyContains "outlook" (pyLower (String.mk (firstFieldTo '@' d))) = false →
     pyContains "hotmail" (pyLower (String.mk (firstFieldTo '@' d))) = false →
     pyContains "live" (pyLower (String.mk (firstFieldTo '@' d))) = false →
     pyContains "icloud" (pyLower (String.mk (firstFieldTo '@' d))) = true →
      get_imap_server s = some "imap.mail.me.com") ∧
    (pyContains "gmail" (pyLower (String.mk (firstFieldTo '@' d))) = false →
     pyContains "yahoo" (pyLower (String.mk (firstFieldTo '@' d))) = false →
     pyContains "outlook" (pyLower (String.mk (firstFieldTo '@' d))) = false →
     pyContains "hotmail" (pyLower (String.mk (firstFieldTo '@' d))) = false →
     pyContains "live" (pyLower (String.mk (firstFieldTo '@' d))) = false →
     pyContains "icloud" (pyLower (String.mk (firstFieldTo '@' d))) = false →
      get_imap_server s = some ("imap." ++ pyLower (String.mk (firstFieldTo '@' d)))) := by
  have hget : (pySplitOnChar '@' s.data).get? 1 = some (firstFieldTo '@' d) := by
    rw [hs]; exact pySplitOnChar_get1 '@' pre d hpre
  refine ⟨?_, ?_, ?_, ?_, ?_, ?_⟩
  · simp only [get_imap_server, hget]
    split
    · exact ⟨_, rfl⟩
    · split
      · exact ⟨_, rfl⟩
      · split
        · exact ⟨_, rfl⟩
        · split
          · exact ⟨_, rfl⟩
          · exact ⟨_, rfl⟩
  · intro h1
    simp only [get_imap_server, hget]
    simp [h1]
  · intro h1 h2
    simp only [get_imap_server, hget]
    simp [h1, h2]
  · intro h1 h2 h3
    simp only [get_imap_server, hget]
    simp [h1, h2, h3]
  · intro h1 h2 h3 h4 h5 h6
    simp only [get_imap_server, hget]
    simp [h1, h2, h3, h4, h5, h6]
  · intro h1 h2 h3 h4 h5 h6
    simp only [get_imap_server, hget]
    simp [h1, h2, h3, h4, h5, h6]

/-- Claim C4 witness: the amended theorem applied to the two concrete
addresses named by the spec. -/
theorem C4_resolver_witness :
    get_imap_server "a@gmail.com" = some "imap.gmail.com" ∧
    get_imap_server "a@myown.org" = some "imap.myown.org" := by
  constructor
  · exact (C4_resolver "a@gmail.com" ['a'] "gmail.com".data (by decide) (by decide)).2.1
      (by decide)
  · have h := (C4_resolver "a@myown.org" ['a'] "myown.org".data (by decide)
      (by decide)).2.2.2.2.2 (by decide) (by decide) (by decide) (by decide) (by decide)
      (by decide)
    rw [h]
    decide

/-! Claim C7: cache store semantics. -/

theorem lookup_filter_out (cache : Cache) (k : String) :
    List.lookup k (cache.filter (fun e => e.1 != k)) = none := by
  induction cache with
  | nil => rfl
  | cons e rest ih =>
    obtain ⟨k1, v⟩ := e
    by_cases he : k1 = k
    · have hf : ((k1, v).1 != k) = false := by simp [he]
      rw [List.filter_cons, hf]
      simpa using ih
    · have hf : ((k1, v).1 != k) = true := by simp [he]
      rw [List.filter_cons, hf]
      have hkk : (k == k1) = false := by simp [Ne.symm he]
      simpa [List.lookup, hkk] using ih

/-- Claim C7: immediately after set(k, v) a get(k) at the same clock
returns v and the stored entry carries the write time; once the TTL (600
seconds) has elapsed since the stored time, get(k) returns nothing and
deletes the entry, and a second get(k) still returns nothing and leaves
the state unchanged; set unconditionally overwrites the entry for k. -/
theorem C7_cache :
    (∀ (cache : Cache) (now : Nat) (k : String) (d : List NormalizedMessage),
      (get_from_cache (set_cache cache now k d) now k).fst = some d ∧
      List.lookup k (set_cache cache now k d) = some (now, d)) ∧
    (∀ (cache : Cache) (now2 : Nat) (k : String) (t : Nat) (d : List NormalizedMessage),
      List.lookup k cache = some (t, d) → t + CACHE_TTL ≤ now2 →
      (get_from_cache cache now2 k).fst = none ∧
      List.lookup k (get_from_cache cache now2 k).snd = none ∧
      (get_from_cache (get_from_cache cache now2 k).snd now2 k).fst = none ∧
      (get_from_cache (get_from_cache cache now2 k).snd now2 k).snd
        = (get_from_cache cache now2 k).snd) := by
  constructor
  · intro cache now k d
    have hl : List.lookup k (set_cache cache now k d) = some (now, d) := by
      simp [set_cache, List.lookup]
    refine ⟨?_, hl⟩
    simp [get_from_cache, hl, CACHE_TTL]
  · intro cache now2 k t d hl htime
    have hexp : ¬ (now2 - t < CACHE_TTL) := by
      simp only [CACHE_TTL] at htime ⊢
      omega
    have hget : get_from_cache cache now2 k = (none, cache.filter (fun e => e.1 != k)) := by
      simp [get_from_cache, hl, hexp]
    have hnone : List.lookup k (cache.filter (fun e => e.1 != k)) = none :=
      lookup_filter_out cache k
    refine ⟨by rw [hget], by rw [hget]; exact hnone, ?_, ?_⟩
    · rw [hget]
      simp [get_from_cache, hnone]
    · rw [hget]
      simp [get_from_cache, hnone]

/-- Claim C7 witness: the cache theorem applied to a concrete store, key
and clock values. -/
theorem C7_cache_witness :
    (get_from_cache (set_cache [] 5 "k" [msgA]) 5 "k").fst = some [msgA] ∧
    (get_from_cache [("k", (0, [msgA]))] 600 "k").fst = none ∧
    List.lookup "k" (get_from_cache [("k", (0, [msgA]))] 600 "k").snd = none ∧
    (get_from_cache (get_from_cache [("k", (0, [msgA]))] 600 "k").snd 600 "k").fst = none := by
  have h1 := (C7_cache.1 [] 5 "k" [msgA]).1
  have h2 := C7_cache.2 [("k", (0, [msgA]))] 600 "k" 0 [msgA] (by decide) (by decide)
  exact ⟨h1, h2.1, h2.2.1, h2.2.2.1⟩

/-! Claim C9: header decoding never aborts. -/

theorem decodeSegsFrom_ok (segs : List MimePart) (acc : String)
    (h : ∀ p ∈ segs, segFails p = false) :
    decodeSegsFrom acc segs = some (acc ++ segConcat segs) := by
  induction segs generalizing acc with
  | nil => simp [decodeSegsFrom, segConcat]
  | cons p rest ih =>
    have hp : segFails p = false := h p (by simp)
    have hrest : ∀ q ∈ rest, segFails q = false := fun q hq => h q (by simp [hq])
    cases p with
    | str t =>
      simp only [decodeSegsFrom, segConcat, segText]
      rw [ih (acc ++ t) hrest, String.append_assoc]
    | bytes enc decD decU =>
      by_cases he : encTruthy enc = true
      · rcases hd : decD with _ | dv
        · simp [segFails, he, hd] at hp
        · simp only [decodeSegsFrom, he, if_true, segConcat, segText]
          rw [ih (acc ++ dv) hrest, String.append_assoc]
          simp [he]
      · have he2 : encTruthy enc = false := by simpa using he
        simp only [decodeSegsFrom, he2, Bool.false_eq_true, if_false, segConcat, segText]
        rw [ih (acc ++ decU) hrest, String.append_assoc]

theorem decodeSegsFrom_fail (segs : List MimePart) (acc : String)
    (h : ∃ p ∈ segs, segFails p = true) :
    decodeSegsFrom acc segs = none := by
  induction segs generalizing acc with
  | nil => simp at h
  | cons p rest ih =>
    rcases h with ⟨q, hq, hfail⟩
    rcases List.mem_cons.mp hq with rfl | hmem
    · cases q with
      | str t => simp [segFails] at hfail
      | bytes enc decD decU =>
        have hand : encTruthy enc = true ∧ decD.isNone = true := by
          simpa [segFails, Bool.and_eq_true] using hfail
        obtain ⟨he, hd⟩ := hand
        rcases decD with _ | dv
        · simp [decodeSegsFrom, he]
        · simp at hd
    · cases p with
      | str t => simpa [decodeSegsFrom] using ih (acc ++ t) ⟨q, hmem, hfail⟩
      | bytes enc decD decU =>
        by_cases he : encTruthy enc = true
        · rcases decD with _ | dv
          · simp [decodeSegsFrom, he]
          · simpa [decodeSegsFrom, he] using ih (acc ++ dv) ⟨q, hmem, hfail⟩
        · have he2 : encTruthy enc = false := by simpa using he
          simpa [decodeSegsFrom, he2] using ih (acc ++ decU) ⟨q, hmem, hfail⟩

/-- Claim C9: decodeHeaderWords always returns a string (the model is a
total function): when decode_header yields the single plain-str segment,
the result is the input itself (identity on plain ASCII); when
decode_header itself raises, the original input is returned; when any
segment's declared-charset decode raises, the original input is returned;
and when no segment fails the result is the concatenation of the segment
texts, a segment without a declared encoding contributing its total
utf-8-with-errors-ignored decoding. -/
theorem C9_decoder (s : String) :
    (decode_mime_words (some [MimePart.str s]) s = s) ∧
    (decode_mime_words none s = s) ∧
    (∀ segs, (∃ p ∈ segs, segFails p = true) → decode_mime_words (some segs) s = s) ∧
    (∀ segs, (∀ p ∈ segs, segFails p = false) →
      decode_mime_words (some segs) s = segConcat segs) := by
  refine ⟨?_, rfl, ?_, ?_⟩
  · simp [decode_mime_words, decodeSegsFrom]
  · intro segs h
    simp [decode_mime_words, decodeSegsFrom_fail segs "" h]
  · intro segs h
    simp [decode_mime_words, decodeSegsFrom_ok segs "" h]

/-- Claim C9 witness: the decoder theorem applied to concrete segment
lists covering the identity, failing-decode and mixed-segment cases. -/
theorem C9_decoder_witness :
    decode_mime_words (some [MimePart.str "hello"]) "hello" = "hello" ∧
    decode_mime_words (some [MimePart.bytes (some "latin-1") none "xy"]) "raw" = "raw" ∧
    decode_mime_words (some [MimePart.bytes none none "ab", MimePart.str "cd"]) "raw"
      = "abcd" := by
  refine ⟨(C9_decoder "hello").1, (C9_decoder "raw").2.2.1 _ (by decide), ?_⟩
  have h := (C9_decoder "raw").2.2.2 [MimePart.bytes none none "ab", MimePart.str "cd"]
    (by decide)
  rw [h]
  decide

/-! Claims C1 and C2: aggregation entry, cache hit and connection failure. -/

/-- Claim C2 counterexample: a fresh cache entry holding the EMPTY
sequence is not returned — the Python truthiness test skips it, a
connection is attempted (observable here because the connection fails and
the failure surfaces in the result), contradicting the claim that the
cached sequence is returned immediately with no connection made. -/
theorem C2_counterexample :
    (fetch_messages_from_account (envFail "boom") [(get_cache_key "u@x.com", (0, []))] 10
      "u@x.com" "pw").fst
      = Except.error ⟨500, "Error fetching messages: 401: Failed to connect to email server: boom"⟩ := by
  rfl

/-- Claim C2 (amended): for every account whose cache entry is fresh
(stored less than 600 seconds ago) and NON-EMPTY, aggregate returns the
cached sequence immediately and no connection is made (the result and the
final cache state are independent of the IMAP environment); a fresh cached
empty sequence is instead treated as a miss and a connection is attempted. -/
theorem C2_cache_hit (env : ImapEnv) (cache : Cache) (now t : Nat)
    (email_address password : String) (d : List NormalizedMessage)
    (hl : List.lookup (get_cache_key email_address) cache = some (t, d))
    (hfresh : now - t < CACHE_TTL) (hne : d ≠ []) :
    fetch_messages_from_account env cache now email_address password = (Except.ok d, cache) := by
  have hget : get_from_cache cache now (get_cache_key email_address) = (some d, cache) := by
    simp [get_from_cache, hl, hfresh]
  have hde : d.isEmpty = false := by simpa using hne
  simp [fetch_messages_from_account, hget, hde]

/-- Claim C2 witness: the amended theorem applied to a failing environment
and a concrete fresh non-empty entry. -/
theorem C2_cache_hit_witness :
    fetch_messages_from_account (envFail "boom") [(get_cache_key "u@x.com", (0, [msgA]))] 10
      "u@x.com" "pw" = (Except.ok [msgA], [(get_cache_key "u@x.com", (0, [msgA]))]) :=
  C2_cache_hit (envFail "boom") _ 10 0 "u@x.com" "pw" [msgA] (by decide) (by decide)
    (by decide)

/-- Claim C1 (code bug): connect_to_imap does raise HTTPException(401)
with the underlying cause in the message and without retrying, but
fetch_messages_from_account's blanket except-Exception catches that very
HTTPException and re-raises it as HTTPException(500), so the aggregate
operation (hence POST /api/messages and POST /api/search, which pass
HTTPExceptions through unchanged) surfaces 500, not 401, on every
authentication or connection failure. -/
theorem C1_auth_error_swallowed (cause : String) :
    connect_to_imap (envFail cause) "u@x.com" "pw"
      = Except.error ⟨401, "Failed to connect to email server: " ++ cause⟩ ∧
    (fetch_messages_from_account (envFail cause) [] 0 "u@x.com" "pw").fst
      = Except.error ⟨500, "Error fetching messages: "
          ++ hstr ⟨401, "Failed to connect to email server: " ++ cause⟩⟩ ∧
    hstr ⟨401, "Failed to connect to email server: LOGIN failed"⟩
      = "401: Failed to connect to email server: LOGIN failed" := by
  refine ⟨rfl, ?_, by decide⟩
  simp [fetch_messages_from_account, get_from_cache, aggregate_body, connect_to_imap, envFail]

/-! Claim C5: which folders are scanned. -/

/-- Claim C5 counterexample: when the folder listing returns without
raising but with a non-OK status, the scanned set is the full
seven-element preference list — none of the three outcomes the claim
allows (the preference-order intersection with the listed names, the
first five listed folders, or the hardcoded INBOX/SPAM/Junk set); here
the listing reports no folders, so the claimed outcomes would be the
empty list or the hardcoded three. -/
theorem C5_counterexample :
    folders_to_check (some ("NO", [])) = common_folders ∧
    common_folders ≠ [] ∧
    common_folders ≠ ["INBOX", "SPAM", "Junk"] := by
  decide

/-- Claim C5 (amended): if the folder listing succeeds with status OK, the
scanned set is the preference list INBOX, SPAM, Junk, PROMOTIONS,
Promotions, Sent, Drafts intersected with the parsed listed folder names,
preserving preference order; if that intersection is empty, the first 5
listed folders in their original order; if the listing raises, the
hardcoded set INBOX, SPAM, Junk; and if the listing returns a non-OK
status without raising, the full 7-element preference list is kept. -/
theorem C5_folder_choice (listRes : Option (String × List String)) :
    (listRes = none → folders_to_check listRes = ["INBOX", "SPAM", "Junk"]) ∧
    (∀ lines, listRes = some ("OK", lines) →
      folders_to_check listRes =
        (if (common_folders.filter (fun f => (lines.map parse_folder_line).contains f)).isEmpty
         then (lines.map parse_folder_line).take 5
         else common_folders.filter (fun f => (lines.map parse_folder_line).contains f))) ∧
    (∀ st lines, listRes = some (st, lines) → st ≠ "OK" →
      folders_to_check listRes = common_folders) := by
  refine ⟨?_, ?_, ?_⟩
  · intro h
    rw [h]
    rfl
  · intro lines h
    rw [h]
    simp [folders_to_check]
  · intro st lines h hst
    rw [h]
    simp [folders_to_check, hst]

/-- Claim C5 witness: the folder-choice theorem applied to a raising
listing, an OK listing whose parsed names include INBOX, and a non-OK
listing. -/
theorem C5_folder_choice_witness :
    folders_to_check none = ["INBOX", "SPAM", "Junk"] ∧
    folders_to_check (some ("OK", ["(\\HasNoChildren) \"/\" \"INBOX\""])) = ["INBOX"] ∧
    folders_to_check (some ("NO", ["x"])) = common_folders := by
  refine ⟨(C5_folder_choice none).1 rfl, ?_, (C5_folder_choice _).2.2 "NO" ["x"] rfl (by decide)⟩
  have h := (C5_folder_choice _).2.1 ["(\\HasNoChildren) \"/\" \"INBOX\""] rfl
  rw [h]
  decide

/-! Claim C3: descending lexicographic sort by raw date string. -/

theorem lexLtChars_asymm : ∀ (a b : List Char), lexLtChars a b = true → lexLtChars b a = false
  | [], [], h => by simp [lexLtChars] at h
  | [], _ :: _, _ => rfl
  | _ :: _, [], h => by simp [lexLtChars] at h
  | a :: as, b :: bs, h => by
    by_cases hab : a < b
    · have hba : ¬ b < a := Char.lt_asymm hab
      simp [lexLtChars, hba, hab]
    · by_cases hba : b < a
      · simp [lexLtChars, hab, hba] at h
      · have hrec : lexLtChars as bs = true := by simpa [lexLtChars, hab, hba] using h
        simp [lexLtChars, hab, hba, lexLtChars_asymm as bs hrec]

theorem insertByDateDesc_chain (m : NormalizedMessage) (l : List NormalizedMessage)
    (h : List.Chain' (fun a b => lexLtChars a.date.data b.date.data = false) l) :
    List.Chain' (fun a b => lexLtChars a.date.data b.date.data = false)
      (insertByDateDesc m l) := by
  induction l with
  | nil => simp [insertByDateDesc]
  | cons a rest ih =>
    by_cases hc : lexLtChars a.date.data m.date.data = true
    · simp only [insertByDateDesc, hc, if_true]
      exact List.chain'_cons.mpr ⟨lexLtChars_asymm _ _ hc, h⟩
    · have hc2 : lexLtChars a.date.data m.date.data = false := by simpa using hc
      simp only [insertByDateDesc, hc2, Bool.false_eq_true, if_false]
      refine List.chain'_cons'.mpr ⟨?_, ih h.tail⟩
      intro y hy
      cases rest with
      | nil =>
        simp [insertByDateDesc] at hy
        exact hy ▸ hc2
      | cons b rest2 =>
        by_cases hb : lexLtChars b.date.data m.date.data = true
        · simp [insertByDateDesc, hb] at hy
          exact hy ▸ hc2
        · have hb2 : lexLtChars b.date.data m.date.data = false := by simpa using hb
          simp [insertByDateDesc, hb2] at hy
          exact hy ▸ (List.chain'_cons.mp h).1

theorem sortByDateDesc_chain (l : List NormalizedMessage) :
    List.Chain' (fun a b => lexLtChars a.date.data b.date.data = false) (sortByDateDesc l) := by
  induction l with
  | nil => simp [sortByDateDesc]
  | cons x xs ih => exact insertByDateDesc_chain x (sortByDateDesc xs) ih

/-- Claim C3: every aggregate result not served from the cache is sorted
descending by the raw date string under lexicographic (code-point) string
comparison, and on the dates "03 Jan", "25 Dec", "9 Feb" the output order
is exactly lexicographic descending ("9 Feb", "25 Dec", "03 Jan"), not
calendar-chronological. -/
theorem C3_sorted :
    (∀ (env : ImapEnv) (now : Nat) (em pw : String) (msgs : List NormalizedMessage) (c : Cache),
       fetch_messages_from_account env [] now em pw = (Except.ok msgs, c) →
       List.Chain' (fun a b => lexLtChars a.date.data b.date.data = false) msgs) ∧
    okDates (fetch_messages_from_account envC3 [] 0 "u@x.com" "pw").fst
      = ["9 Feb", "25 Dec", "03 Jan"] := by
  constructor
  · intro env now em pw msgs c h
    have hmiss : get_from_cache ([] : Cache) now (get_cache_key em) = (none, []) := rfl
    rw [fetch_messages_from_account] at h
    rw [hmiss] at h
    simp only [aggregate_body, connect_to_imap] at h
    rcases henv : env.connect with _ | sess
    · rw [henv] at h
      simp at h
    · rw [henv] at h
      simp only [Prod.mk.injEq] at h
      obtain ⟨h1, -⟩ := h
      have h2 := Except.ok.inj h1
      rw [← h2]
      exact sortByDateDesc_chain _
  · rfl

/-- Claim C3 witness: the sortedness theorem applied to the concrete
environment whose INBOX yields the three spec dates. -/
theorem C3_sorted_witness :
    List.Chain' (fun a b => lexLtChars a.date.data b.date.data = false)
      [normalizeMsg "INBOX" "3" (sampleEmailMsg "9 Feb"),
       normalizeMsg "INBOX" "2" (sampleEmailMsg "25 Dec"),
       normalizeMsg "INBOX" "1" (sampleEmailMsg "03 Jan")] := by
  have heq : fetch_messages_from_account envC3 [] 0 "u@x.com" "pw"
      = (Except.ok
          [normalizeMsg "INBOX" "3" (sampleEmailMsg "9 Feb"),
           normalizeMsg "INBOX" "2" (sampleEmailMsg "25 Dec"),
           normalizeMsg "INBOX" "1" (sampleEmailMsg "03 Jan")],
         [(get_cache_key "u@x.com",
           (0, [normalizeMsg "INBOX" "3" (sampleEmailMsg "9 Feb"),
                normalizeMsg "INBOX" "2" (sampleEmailMsg "25 Dec"),
                normalizeMsg "INBOX" "1" (sampleEmailMsg "03 Jan")]))]) := rfl
  exact C3_sorted.1 envC3 0 "u@x.com" "pw" _ _ heq

/-! Claim C6: per-folder fetch behaviour. -/

theorem processIds_eq_filterMap (sess : Session) (folder : String) (ids : List String) :
    processIds sess folder ids
      = ids.filterMap (fun i => (sess.fetch folder i).map (normalizeMsg folder i)) := by
  induction ids with
  | nil => rfl
  | cons i rest ih =>
    rcases h : sess.fetch folder i with _ | m <;>
      simp [processIds, h, ih, List.filterMap_cons]

/-- Claim C6 counterexample: the claim quantifies over every limit and
says at most `limit` messages are returned, but Python slicing makes a
limit of 0 select the whole id list, so the folder with three messages
returns three messages where the claim allows zero. -/
theorem C6_counterexample : (fetch_messages_from_folder sessC3 "INBOX" 0).length = 3 := by
  rfl

/-- Claim C6 (amended): for every session, folder name and POSITIVE limit,
a failed (raising or non-OK) folder selection yields the empty sequence
rather than an error; otherwise the result is exactly the last `limit`
message identifiers processed in reverse (most recent first), one
normalized message per identifier whose fetch succeeds, a fetch failure
skipping only that identifier; at most `limit` messages are returned and
each carries folder = folderName.  For limit = 0 the whole folder is
processed instead. -/
theorem C6_folder_fetch (sess : Session) (folder : String) (limit : Nat)
    (hpos : 1 ≤ limit) :
    (sess.select folder = none → fetch_messages_from_folder sess folder limit = []) ∧
    (∀ st, sess.select folder = some st → st ≠ "OK" →
      fetch_messages_from_folder sess folder limit = []) ∧
    (∀ ids, sess.select folder = some "OK" → sess.search folder = some ("OK", ids) →
      fetch_messages_from_folder sess folder limit
        = ((if ids.length > limit then ids.drop (ids.length - limit) else ids).reverse.filterMap
            (fun i => (sess.fetch folder i).map (normalizeMsg folder i)))) ∧
    (fetch_messages_from_folder sess folder limit).length ≤ limit ∧
    (∀ m ∈ fetch_messages_from_folder sess folder limit, m.folder = folder) := by
  have hfetch : ∀ ids, sess.select folder = some "OK" → sess.search folder = some ("OK", ids) →
      fetch_messages_from_folder sess folder limit
        = ((if ids.length > limit then ids.drop (ids.length - limit) else ids).reverse.filterMap
            (fun i => (sess.fetch folder i).map (normalizeMsg folder i))) := by
    intro ids hsel hsearch
    have hslice : (if ids.length > limit then pyLastSlice limit ids else ids)
        = (if ids.length > limit then ids.drop (ids.length - limit) else ids) := by
      by_cases hgt : ids.length > limit
      · rw [if_pos hgt, if_pos hgt, pyLastSlice, if_neg (by omega)]
      · rw [if_neg hgt, if_neg hgt]
    simp only [fetch_messages_from_folder, hsel, hsearch, ne_eq, not_true_eq_false,
      if_false]
    rw [hslice, processIds_eq_filterMap]
  refine ⟨?_, ?_, hfetch, ?_, ?_⟩
  · intro h
    rw [fetch_messages_from_folder, h]
  · intro st h hst
    rw [fetch_messages_from_folder, h]
    simp [hst]
  · rcases hsel : sess.select folder with _ | st
    · rw [fetch_messages_from_folder, hsel]
      simp
    · by_cases hst : st = "OK"
      · subst hst
        rcases hsearch : sess.search folder with _ | ⟨st2, ids⟩
        · rw [fetch_messages_from_folder, hsel]
          simp [hsearch]
        · by_cases hst2 : st2 = "OK"
          · subst hst2
            rw [hfetch ids hsel hsearch]
            have hlen := List.length_filterMap_le
              (fun i => (sess.fetch folder i).map (normalizeMsg folder i))
              ((if ids.length > limit then ids.drop (ids.length - limit) else ids).reverse)
            refine le_trans hlen ?_
            rw [List.length_reverse]
            by_cases hgt : ids.length > limit
            · rw [if_pos hgt, List.length_drop]
              omega
            · rw [if_neg hgt]
              omega
          · rw [fetch_messages_from_folder, hsel]
            simp [hsearch, hst2]
      · rw [fetch_messages_from_folder, hsel]
        simp [hst]
  · intro m hm
    rcases hsel : sess.select folder with _ | st
    · rw [fetch_messages_from_folder, hsel] at hm
      simp at hm
    · by_cases hst : st = "OK"
      · subst hst
        rcases hsearch : sess.search folder with _ | ⟨st2, ids⟩
        · rw [fetch_messages_from_folder, hsel] at hm
          simp [hsearch] at hm
        · by_cases hst2 : st2 = "OK"
          · subst hst2
            rw [hfetch ids hsel hsearch] at hm
            rcases List.mem_filterMap.mp hm with ⟨i, -, hmap⟩
            rcases Option.map_eq_some'.mp hmap with ⟨msg, -, hnorm⟩
            rw [← hnorm]
            rfl
          · rw [fetch_messages_from_folder, hsel] at hm
            simp [hsearch, hst2] at hm
      · rw [fetch_messages_from_folder, hsel] at hm
        simp [hst] at hm

/-- Claim C6 witness: the amended theorem applied to the sample session
with limit 2 (the last two of the three INBOX ids, newest first). -/
theorem C6_folder_fetch_witness :
    fetch_messages_from_folder sessC3 "INBOX" 2
      = ((if ([("1" : String), "2", "3"]).length > 2
          then ([("1" : String), "2", "3"]).drop (([("1" : String), "2", "3"]).length - 2)
          else [("1" : String), "2", "3"]).reverse.filterMap
          (fun i => (sessC3.fetch "INBOX" i).map (normalizeMsg "INBOX" i))) ∧
    (fetch_messages_from_folder sessC3 "INBOX" 2).length ≤ 2 := by
  have h := C6_folder_fetch sessC3 "INBOX" 2 (by decide)
  exact ⟨h.2.2.1 ["1", "2", "3"] rfl rfl, h.2.2.2.1⟩

/-! Claim C10: snippet length and whitespace collapse. -/

theorem mem_fetch_shape (sess : Session) (folder : String) (limit : Nat) :
    ∀ m ∈ fetch_messages_from_folder sess folder limit,
      ∃ i msg, m = normalizeMsg folder i msg := by
  intro m hm
  rcases hsel : sess.select folder with _ | st
  · rw [fetch_messages_from_folder, hsel] at hm
    simp at hm
  · by_cases hst : st = "OK"
    · subst hst
      rcases hsearch : sess.search folder with _ | ⟨st2, ids⟩
      · rw [fetch_messages_from_folder, hsel] at hm
        simp [hsearch] at hm
      · by_cases hst2 : st2 = "OK"
        · subst hst2
          rw [fetch_messages_from_folder, hsel] at hm
          simp only [hsearch, ne_eq, not_true_eq_false, if_false] at hm
          rw [processIds_eq_filterMap] at hm
          rcases List.mem_filterMap.mp hm with ⟨i, -, hmap⟩
          rcases Option.map_eq_some'.mp hmap with ⟨msg, -, hnorm⟩
          exact ⟨i, msg, hnorm.symm⟩
        · rw [fetch_messages_from_folder, hsel] at hm
          simp [hsearch, hst2] at hm
    · rw [fetch_messages_from_folder, hsel] at hm
      simp [hst] at hm

theorem pySplitWsAux_tokens (l : List Char) :
    ∀ (acc : List Char), (∀ c ∈ acc, pyIsSpace c = false) →
    ∀ t ∈ pySplitWsAux acc l, t ≠ [] ∧ ∀ c ∈ t, pyIsSpace c = false := by
  induction l with
  | nil =>
    intro acc hacc t ht
    rcases hacc2 : acc.isEmpty with _ | _
    · simp only [pySplitWsAux, hacc2, Bool.false_eq_true, if_false, List.mem_singleton] at ht
      subst ht
      have hne : acc ≠ [] := by simpa [List.isEmpty_iff] using hacc2
      refine ⟨by simpa using hne, ?_⟩
      intro c hc
      exact hacc c (List.mem_reverse.mp hc)
    · simp [pySplitWsAux, hacc2] at ht
  | cons c rest ih =>
    intro acc hacc t ht
    by_cases hsp : pyIsSpace c = true
    · rcases hacc2 : acc.isEmpty with _ | _
      · simp only [pySplitWsAux, hsp, if_true, hacc2, Bool.false_eq_true, if_false,
          List.mem_cons] at ht
        rcases ht with rfl | ht2
        · have hne : acc ≠ [] := by simpa [List.isEmpty_iff] using hacc2
          refine ⟨by simpa using hne, ?_⟩
          intro d hd
          exact hacc d (List.mem_reverse.mp hd)
        · exact ih [] (by simp) t ht2
      · simp only [pySplitWsAux, hsp, if_true, hacc2, if_true] at ht
        exact ih [] (by simp) t ht
    · have hsp2 : pyIsSpace c = false := by simpa using hsp
      simp only [pySplitWsAux, hsp2, Bool.false_eq_true, if_false] at ht
      refine ih (c :: acc) ?_ t ht
      intro d hd
      rcases List.mem_cons.mp hd with rfl | hd2
      · exact hsp2
      · exact hacc d hd2

theorem nospace_chain (l : List Char) (h : ∀ c ∈ l, pyIsSpace c = false) :
    List.Chain' (fun a b => (pyIsSpace a && pyIsSpace b) = false) l := by
  induction l with
  | nil => simp
  | cons a rest ih =>
    refine List.chain'_cons'.mpr ⟨?_, ih fun c hc => h c (by simp [hc])⟩
    intro y _
    simp [h a (by simp)]

theorem joinSpace_head (t : List Char) (ts : List (List Char)) (ht : t ≠ []) :
    (joinSpace (t :: ts)).head? = t.head? := by
  cases ts with
  | nil => rfl
  | cons t2 ts2 =>
    cases t with
    | nil => exact absurd rfl ht
    | cons a as => rfl

theorem joinSpace_chain (ts : List (List Char))
    (h : ∀ t ∈ ts, t ≠ [] ∧ ∀ c ∈ t, pyIsSpace c = false) :
    List.Chain' (fun a b => (pyIsSpace a && pyIsSpace b) = false) (joinSpace ts) := by
  induction ts with
  | nil => simp [joinSpace]
  | cons t ts ih =>
    cases ts with
    | nil => exact nospace_chain t (h t (by simp)).2
    | cons t2 ts2 =>
      have hts : ∀ u ∈ t2 :: ts2, u ≠ [] ∧ ∀ c ∈ u, pyIsSpace c = false :=
        fun u hu => h u (by simp [List.mem_cons.mp hu])
      show List.Chain' _ (t ++ ' ' :: joinSpace (t2 :: ts2))
      refine List.chain'_append.mpr ⟨nospace_chain t (h t (by simp)).2, ?_, ?_⟩
      · refine List.chain'_cons'.mpr ⟨?_, ih hts⟩
        intro y hy
        rw [joinSpace_head t2 ts2 (hts t2 (by simp)).1] at hy
        have hyt2 : y ∈ t2 := List.mem_of_mem_head? hy
        simp [(hts t2 (by simp)).2 y hyt2]
      · intro x hx y hy
        simp only [List.head?_cons, Option.mem_def, Option.some.injEq] at hy
        have hxt : x ∈ t := List.mem_of_mem_getLast? hx
        simp [← hy, (h t (by simp)).2 x hxt]

theorem joinSpace_mem (ts : List (List Char)) (c : Char) (hc : c ∈ joinSpace ts) :
    (∃ t ∈ ts, c ∈ t) ∨ c = ' ' := by
  induction ts with
  | nil => simp [joinSpace] at hc
  | cons t ts ih =>
    cases ts with
    | nil =>
      simp only [joinSpace] at hc
      exact Or.inl ⟨t, by simp, hc⟩
    | cons t2 ts2 =>
      simp only [joinSpace] at hc
      rcases List.mem_append.mp hc with h1 | h2
      · exact Or.inl ⟨t, by simp, h1⟩
      · rcases List.mem_cons.mp h2 with rfl | h3
        · exact Or.inr rfl
        · rcases ih h3 with ⟨u, hu, hcu⟩ | hsp
          · exact Or.inl ⟨u, by simp [hu], hcu⟩
          · exact Or.inr hsp

theorem cleanSnippet_length (s : List Char) : (cleanSnippet s).length ≤ 200 := by
  rw [cleanSnippet]
  split
  · simp
  · rw [List.length_take]
    omega

theorem cleanSnippet_chain (s : List Char) :
    List.Chain' (fun a b => (pyIsSpace a && pyIsSpace b) = false) (cleanSnippet s) := by
  rw [cleanSnippet]
  split
  · simp
  · exact (joinSpace_chain (pySplitWs s)
      (pySplitWsAux_tokens s [] (by simp))).take 200

theorem cleanSnippet_space (s : List Char) :
    ∀ c ∈ cleanSnippet s, pyIsSpace c = true → c = ' ' := by
  rw [cleanSnippet]
  split
  · simp
  · intro c hc hsp
    have hmem : c ∈ joinSpace (pySplitWs s) :=
      (List.take_sublist 200 _).subset hc
    rcases joinSpace_mem _ c hmem with ⟨t, ht, hct⟩ | hspc
    · have := (pySplitWsAux_tokens s [] (by simp) t ht).2 c hct
      rw [this] at hsp
      cases hsp
    · exact hspc

theorem pySplitWsAux_all_nonspace (l : List Char) :
    ∀ (acc : List Char), ¬(acc = [] ∧ l = []) → (∀ c ∈ l, pyIsSpace c = false) →
    pySplitWsAux acc l = [acc.reverse ++ l] := by
  induction l with
  | nil =>
    intro acc hne _
    have hacc : acc ≠ [] := fun h => hne ⟨h, rfl⟩
    simp [pySplitWsAux, List.isEmpty_iff, hacc]
  | cons c rest ih =>
    intro acc _ hl
    have hsp : pyIsSpace c = false := hl c (by simp)
    simp only [pySplitWsAux, hsp, Bool.false_eq_true, if_false]
    rw [ih (c :: acc) (by simp) (fun d hd => hl d (by simp [hd]))]
    simp

/-- Claim C10: every NormalizedMessage emitted by the folder fetcher has a
snippet of at most 200 characters in which no two adjacent characters are
whitespace and every whitespace character is a plain space (whitespace
runs collapsed), and a non-multipart body of 300 letter-x characters
yields a snippet of exactly 200 characters. -/
theorem C10_snippet :
    (∀ (sess : Session) (folder : String) (limit : Nat),
      ∀ m ∈ fetch_messages_from_folder sess folder limit,
        m.snippet.length ≤ 200 ∧
        List.Chain' (fun a b => (pyIsSpace a && pyIsSpace b) = false) m.snippet.data ∧
        (∀ c ∈ m.snippet.data, pyIsSpace c = true → c = ' ')) ∧
    (normalizeMsg "INBOX" "1" msg300).snippet.length = 200 := by
  constructor
  · intro sess folder limit m hm
    rcases mem_fetch_shape sess folder limit m hm with ⟨i, msg, rfl⟩
    have hdata : (normalizeMsg folder i msg).snippet.data
        = cleanSnippet (extractSnippet msg) := rfl
    have hlen : (normalizeMsg folder i msg).snippet.length
        = (cleanSnippet (extractSnippet msg)).length := rfl
    refine ⟨?_, ?_, ?_⟩
    · rw [hlen]
      exact cleanSnippet_length _
    · rw [hdata]
      exact cleanSnippet_chain _
    · rw [hdata]
      exact cleanSnippet_space _
  · have hextract : extractSnippet msg300 = List.replicate 200 'x' := by
      have h1 : extractSnippet msg300 = (List.replicate 300 'x').take 200 := rfl
      rw [h1, List.take_replicate]
      norm_num
    have hclean : cleanSnippet (List.replicate 200 'x') = List.replicate 200 'x' := by
      rw [cleanSnippet]
      rw [if_neg (by simp [List.isEmpty_iff])]
      rw [pySplitWs, pySplitWsAux_all_nonspace _ [] (by simp)
        (fun c hc => by rw [List.eq_of_mem_replicate hc]; rfl)]
      rw [List.reverse_nil, List.nil_append]
      show (List.replicate 200 'x').take 200 = List.replicate 200 'x'
      rw [List.take_replicate]
      norm_num
    show (cleanSnippet (extractSnippet msg300)).length = 200
    rw [hextract, hclean, List.length_replicate]

/-- Claim C10 witness: the snippet theorem applied to a concrete message
of the sample session. -/
theorem C10_snippet_witness :
    (normalizeMsg "INBOX" "3" (sampleEmailMsg "9 Feb")).snippet.length ≤ 200 ∧
    (∀ c ∈ (normalizeMsg "INBOX" "3" (sampleEmailMsg "9 Feb")).snippet.data,
      pyIsSpace c = true → c = ' ') := by
  have h := C10_snippet.1 sessC3 "INBOX" 30
    (normalizeMsg "INBOX" "3" (sampleEmailMsg "9 Feb")) (by decide)
  exact ⟨h.1, h.2.2⟩

/-! Claim C8: search by sender. -/

theorem char_toNat_ofNat_valid {n : Nat} (h : n.isValidChar) :
    (Char.ofNat n).toNat = n := by
  rw [Char.ofNat, dif_pos h]
  rfl

theorem pyLowerChar_shape (c : Char) :
    pyLowerChar c = c ∨
    (97 ≤ (pyLowerChar c).toNat ∧ (pyLowerChar c).toNat ≤ 122 ∧
     65 ≤ c.toNat ∧ c.toNat ≤ 90) := by
  rw [pyLowerChar]
  by_cases h : 65 ≤ c.toNat ∧ c.toNat ≤ 90
  · rw [if_pos h]
    right
    have hv : (c.toNat + 32).isValidChar := Or.inl (by omega)
    rw [char_toNat_ofNat_valid hv]
    exact ⟨by omega, by omega, h.1, h.2⟩
  · rw [if_neg h]
    left
    rfl

theorem pyLowerChar_eq_low {c t : Char} (ht : t.toNat < 65) :
    (pyLowerChar c = t) ↔ (c = t) := by
  rcases pyLowerChar_shape c with h | ⟨h1, h2, h3, h4⟩
  · rw [h]
  · constructor
    · intro he
      rw [he] at h1
      omega
    · intro he
      rw [he] at h3
      omega

theorem pyIsSpace_high {x : Char} (hx : 65 ≤ x.toNat) : pyIsSpace x = false := by
  have h1 : x ≠ ' ' := fun he => absurd (he ▸ hx) (by decide)
  have h2 : x ≠ '\t' := fun he => absurd (he ▸ hx) (by decide)
  have h3 : x ≠ '\n' := fun he => absurd (he ▸ hx) (by decide)
  have h4 : x ≠ '\r' := fun he => absurd (he ▸ hx) (by decide)
  have h5 : x ≠ '\x0b' := fun he => absurd (he ▸ hx) (by decide)
  have h6 : x ≠ '\x0c' := fun he => absurd (he ▸ hx) (by decide)
  simp [pyIsSpace, h1, h2, h3, h4, h5, h6]

theorem pyLowerChar_isSpace (c : Char) : pyIsSpace (pyLowerChar c) = pyIsSpace c := by
  rcases pyLowerChar_shape c with h | ⟨h1, h2, h3, h4⟩
  · rw [h]
  · rw [pyIsSpace_high (by omega), pyIsSpace_high (by omega)]

theorem pyLowerChar_fix {c : Char} (h : ¬(65 ≤ c.toNat ∧ c.toNat ≤ 90)) :
    pyLowerChar c = c := by
  rw [pyLowerChar, if_neg h]

theorem pyLowerChar_idem (c : Char) : pyLowerChar (pyLowerChar c) = pyLowerChar c := by
  rcases pyLowerChar_shape c with h | ⟨h1, h2, -, -⟩
  · rw [h]
    exact h
  · exact pyLowerChar_fix (by omega)

theorem pyLower_idem (s : String) : pyLower (pyLower s) = pyLower s := by
  apply congrArg String.mk
  show (s.data.map pyLowerChar).map pyLowerChar = s.data.map pyLowerChar
  rw [List.map_map]
  exact List.map_congr_left fun a _ => pyLowerChar_idem a

theorem mem_lower_iff {t : Char} (ht : t.toNat < 65) (l : List Char) :
    t ∈ l.map pyLowerChar ↔ t ∈ l := by
  simp only [List.mem_map]
  constructor
  · rintro ⟨a, ha, he⟩
    exact ((pyLowerChar_eq_low ht).mp he) ▸ ha
  · intro h
    exact ⟨t, h, (pyLowerChar_eq_low ht).mpr rfl⟩

theorem takeWhile_map_comm (f : Char → Char) (p : Char → Bool)
    (hp : ∀ a, p (f a) = p a) (l : List Char) :
    (l.map f).takeWhile p = (l.takeWhile p).map f := by
  induction l with
  | nil => rfl
  | cons c rest ih =>
    rw [List.map_cons, List.takeWhile_cons, List.takeWhile_cons, hp c]
    cases hc : p c <;> simp [hc, ih]

theorem dropWhile_map_comm (f : Char → Char) (p : Char → Bool)
    (hp : ∀ a, p (f a) = p a) (l : List Char) :
    (l.map f).dropWhile p = (l.dropWhile p).map f := by
  induction l with
  | nil => rfl
  | cons c rest ih =>
    rw [List.map_cons, List.dropWhile_cons, List.dropWhile_cons, hp c]
    cases hc : p c <;> simp [hc, ih]

theorem lower_pres_gt (a : Char) :
    (fun d => decide (d ≠ '>')) (pyLowerChar a) = (fun d => decide (d ≠ '>')) a := by
  simp only [decide_eq_decide]
  exact not_congr (pyLowerChar_eq_low (by decide))

theorem pyStrip_map (l : List Char) :
    pyStrip (l.map pyLowerChar) = (pyStrip l).map pyLowerChar := by
  rw [pyStrip, pyStrip, dropWhile_map_comm pyLowerChar pyIsSpace pyLowerChar_isSpace,
    ← List.map_reverse, dropWhile_map_comm pyLowerChar pyIsSpace pyLowerChar_isSpace,
    ← List.map_reverse]

theorem findAngle_map (l : List Char) :
    findAngle (l.map pyLowerChar) = (findAngle l).map (List.map pyLowerChar) := by
  induction l with
  | nil => rfl
  | cons c rest ih =>
    by_cases hc : c = '<'
    · have h2 : pyLowerChar c = '<' := (pyLowerChar_eq_low (by decide)).mpr hc
      rw [List.map_cons, findAngle, findAngle]
      rw [if_pos h2, if_pos hc,
        dropWhile_map_comm pyLowerChar _ lower_pres_gt,
        takeWhile_map_comm pyLowerChar _ lower_pres_gt]
      rcases hdrop : rest.dropWhile (fun d => d ≠ '>') with _ | ⟨x, xs⟩
      · simpa using ih
      · simp only [List.map_cons]
        rcases htake : rest.takeWhile (fun d => d ≠ '>') with _ | ⟨y, ys⟩
        · simpa using ih
        · simp
    · have h2 : ¬ pyLowerChar c = '<' := fun he => hc ((pyLowerChar_eq_low (by decide)).mp he)
      rw [List.map_cons, findAngle, findAngle, if_neg h2, if_neg hc]
      exact ih

theorem extract_lower_comm (s : String) :
    extract_email_address (pyLower s) = pyLower (extract_email_address s) := by
  rw [extract_email_address, extract_email_address]
  have hdata : (pyLower s).data = s.data.map pyLowerChar := rfl
  rw [hdata]
  by_cases hg : ('<' ∈ s.data) ∧ ('>' ∈ s.data)
  · rw [if_pos ⟨(mem_lower_iff (by decide) _).mpr hg.1, (mem_lower_iff (by decide) _).mpr hg.2⟩,
      if_pos hg, findAngle_map]
    rcases hfind : findAngle s.data with _ | content
    · simp only [Option.map_none']
      exact congrArg String.mk (pyStrip_map s.data)
    · simp only [Option.map_some']
      exact congrArg String.mk (pyStrip_map content)
  · rw [if_neg (fun hb => hg ⟨(mem_lower_iff (by decide) _).mp hb.1,
      (mem_lower_iff (by decide) _).mp hb.2⟩), if_neg hg]
    exact congrArg String.mk (pyStrip_map s.data)

theorem aggregate_body_error_500 (env : ImapEnv) (cache : Cache) (now : Nat)
    (em pw : String) (e : HTTPError) (c1 : Cache)
    (h : aggregate_body env cache now em pw = (Except.error e, c1)) : e.status = 500 := by
  rw [aggregate_body, connect_to_imap] at h
  rcases hc : env.connect with _ | sess
  · rw [hc] at h
    simp only [Prod.mk.injEq] at h
    obtain ⟨h1, -⟩ := h
    have h2 : e = ⟨500, "Error fetching messages: "
        ++ hstr ⟨401, "Failed to connect to email server: " ++ env.connectError⟩⟩ :=
      (Except.error.inj h1).symm
    rw [h2]
  · rw [hc] at h
    simp at h

theorem fetch_error_500 (env : ImapEnv) (cache : Cache) (now : Nat)
    (em pw : String) (e : HTTPError) (c1 : Cache)
    (h : fetch_messages_from_account env cache now em pw = (Except.error e, c1)) :
    e.status = 500 := by
  rw [fetch_messages_from_account] at h
  rcases hget : get_from_cache cache now (get_cache_key em) with ⟨opt, cache2⟩
  rw [hget] at h
  rcases opt with _ | d
  · exact aggregate_body_error_500 env cache2 now em pw e c1 h
  · have h2 : (if d.isEmpty = true then aggregate_body env cache2 now em pw
        else (Except.ok d, cache2)) = (Except.error e, c1) := h
    rcases hde : d.isEmpty with _ | _
    · rw [hde] at h2
      simp at h2
    · rw [hde] at h2
      exact aggregate_body_error_500 env cache2 now em pw e c1 (by simpa using h2)

/-- Claim C8: searchBySender fails with the 400 client error exactly when
the sender term is absent or empty; otherwise it returns exactly those
aggregate messages whose lower-cased sender field, or whose extracted
address lower-cased, contains the lower-cased term as a substring,
together with their count and the term; and the sender "Alice <a@x.com>"
matches "ALICE", "a@x.com" and "x.com" but not "bob". -/
theorem C8_search :
    (∀ (env : ImapEnv) (cache : Cache) (now : Nat) (em pw : String)
       (sender : Option String),
      ((search_messages env cache now em pw sender).fst
         = Except.error ⟨400, "Sender parameter is required"⟩)
        ↔ (sender = none ∨ sender = some "")) ∧
    (∀ (env : ImapEnv) (cache : Cache) (now : Nat) (em pw s : String)
       (msgs : List NormalizedMessage) (c1 : Cache), s ≠ "" →
      fetch_messages_from_account env cache now em pw = (Except.ok msgs, c1) →
      search_messages env cache now em pw (some s)
        = (Except.ok
            ⟨msgs.filter (fun m => pyContains (pyLower s) (pyLower m.sender)
               || pyContains (pyLower s) (pyLower (extract_email_address m.sender))),
             (msgs.filter (fun m => pyContains (pyLower s) (pyLower m.sender)
               || pyContains (pyLower s) (pyLower (extract_email_address m.sender)))).length,
             s⟩, c1)) ∧
    (matchesSender (pyLower "ALICE") msgA = true ∧
     matchesSender (pyLower "a@x.com") msgA = true ∧
     matchesSender (pyLower "x.com") msgA = true ∧
     matchesSender (pyLower "bob") msgA = false) := by
  have hpred : ∀ s : String, matchesSender (pyLower s)
      = fun m => pyContains (pyLower s) (pyLower m.sender)
          || pyContains (pyLower s) (pyLower (extract_email_address m.sender)) := by
    intro s
    funext m
    rw [matchesSender, extract_lower_comm, pyLower_idem]
  refine ⟨?_, ?_, by decide⟩
  · intro env cache now em pw sender
    rcases sender with _ | s
    · simp [search_messages]
    · by_cases hs : s = ""
      · subst hs
        simp [search_messages]
      · rw [search_messages]
        rcases hfetch : fetch_messages_from_account env cache now em pw with ⟨r, c2⟩
        rcases r with e | msgs
        · rw [if_neg hs]
          constructor
          · intro he
            have he2 : Except.error e
                = Except.error (⟨400, "Sender parameter is required"⟩ : HTTPError) := he
            have h400 : e = ⟨400, "Sender parameter is required"⟩ := Except.error.inj he2
            have h500 : e.status = 500 := fetch_error_500 env cache now em pw e c2 hfetch
            rw [h400] at h500
            cases h500
          · intro hor
            rcases hor with h | h
            · cases h
            · exact absurd (Option.some.inj h) hs
        · rw [if_neg hs]
          constructor
          · intro he
            have he2 : (Except.ok (⟨msgs.filter (matchesSender (pyLower s)),
                  (msgs.filter (matchesSender (pyLower s))).length, s⟩ : SearchOut)
                  : Except HTTPError SearchOut)
                = Except.error ⟨400, "Sender parameter is required"⟩ := he
            cases he2
          · intro hor
            rcases hor with h | h
            · cases h
            · exact absurd (Option.some.inj h) hs
  · intro env cache now em pw s msgs c1 hs hfetch
    rw [search_messages, if_neg hs, hfetch]
    simp only [hpred s]

/-- Claim C8 witness: a missing sender term yields the 400 error, and a
concrete search against the sample account returns the filtered messages
with their count and the term. -/
theorem C8_search_witness :
    (search_messages (envFail "boom") [] 0 "u@x.com" "pw" none).fst
      = Except.error ⟨400, "Sender parameter is required"⟩ ∧
    search_messages envC3 [] 0 "u@x.com" "pw" (some "ALICE")
      = (Except.ok
          ⟨([normalizeMsg "INBOX" "3" (sampleEmailMsg "9 Feb"),
             normalizeMsg "INBOX" "2" (sampleEmailMsg "25 Dec"),
             normalizeMsg "INBOX" "1" (sampleEmailMsg "03 Jan")]).filter
              (fun m => pyContains (pyLower "ALICE") (pyLower m.sender)
                || pyContains (pyLower "ALICE") (pyLower (extract_email_address m.sender))),
           (([normalizeMsg "INBOX" "3" (sampleEmailMsg "9 Feb"),
              normalizeMsg "INBOX" "2" (sampleEmailMsg "25 Dec"),
              normalizeMsg "INBOX" "1" (sampleEmailMsg "03 Jan")]).filter
              (fun m => pyContains (pyLower "ALICE") (pyLower m.sender)
                || pyContains (pyLower "ALICE") (pyLower (extract_email_address m.sender)))).length,
           "ALICE"⟩,
         [(get_cache_key "u@x.com",
           (0, [normalizeMsg "INBOX" "3" (sampleEmailMsg "9 Feb"),
                normalizeMsg "INBOX" "2" (sampleEmailMsg "25 Dec"),
                normalizeMsg "INBOX" "1" (sampleEmailMsg "03 Jan")]))]) := by
  refine ⟨(C8_search.1 (envFail "boom") [] 0 "u@x.com" "pw" none).mpr (Or.inl rfl), ?_⟩
  exact C8_search.2.1 envC3 [] 0 "u@x.com" "pw" "ALICE" _ _ (by decide) rfl
